import Mathlib

/-!
# GoMarks: the shortcut resolution handler

A shallow embedding of `handleRedirect` from `main.go` together with the
three tables it reads and writes (`items`, `settings`, `queries`), and of the
handlers that write the templates it substitutes into: `handleAdd`,
`handleModPost` and `handleFallbackPost`.

Modelling conventions.

* A Go string is modelled as the list of its code points (`Str`), i.e. the
  text is taken to be valid UTF-8.  The ASCII case folding done by SQLite's
  `LOWER` and the byte-wise search done by the `strings` package agree with
  their code-point versions on such text.
* The database is an explicit record that the handler takes and returns.
  A statement that the driver executes is modelled as succeeding; the one
  query whose failure depends on the data (a missing `fallback_url` row, an
  empty result set) is modelled with `Option`.
* The `id` and `created_at` columns are never read by the handler and are
  left out.  `singleword` and `count` are SQLite integers, modelled by `Int`;
  the 64-bit range of the column is not modelled, a counter that starts at 0
  and grows by one per request does not reach it.
* The response records the arguments of the single `http.Error` or
  `http.Redirect` call the handler makes.
-/

namespace GoMarks

/-- Text: the code points of a Go string. -/
abbrev Str := List Char

/-! ## The functions of Go's `strings` package that the handler calls -/

/-- White space as `unicode.IsSpace` defines it. -/
def isSpace (c : Char) : Bool :=
  let n := c.toNat
  n == 0x09 || n == 0x0A || n == 0x0B || n == 0x0C || n == 0x0D || n == 0x20
    || n == 0x85 || n == 0xA0 || n == 0x1680 || (0x2000 ≤ n && n ≤ 0x200A)
    || n == 0x2028 || n == 0x2029 || n == 0x202F || n == 0x205F || n == 0x3000

/-- Scanning loop of `strings.Fields`: `cur` is the field being read. -/
def FieldsAux : Str → Str → List Str
  | [], cur => if cur = [] then [] else [cur]
  | c :: cs, cur =>
    if isSpace c then
      if cur = [] then FieldsAux cs [] else cur :: FieldsAux cs []
    else FieldsAux cs (cur ++ [c])

/-- `strings.Fields`: the maximal runs of non-space characters, in order. -/
def Fields (s : Str) : List Str := FieldsAux s []

/-- `strings.Join`. -/
def Join : List Str → Str → Str
  | [], _ => []
  | [w], _ => w
  | w :: v :: ws, sep => w ++ sep ++ Join (v :: ws) sep

/-- `strings.HasPrefix`. -/
def startsWith : Str → Str → Bool
  | _, [] => true
  | [], _ :: _ => false
  | c :: cs, p :: ps => c == p && startsWith cs ps

/-- `strings.Contains`. -/
def Contains : Str → Str → Bool
  | [], sub => startsWith [] sub
  | c :: cs, sub => startsWith (c :: cs) sub || Contains cs sub

/-- Left-to-right replacement of the non-overlapping occurrences of a
non-empty `old`; `skip` counts the characters of the occurrence just replaced
that are still to be passed over. -/
def ReplaceAux (old new : Str) : Str → Nat → Str
  | [], _ => []
  | _ :: cs, skip + 1 => ReplaceAux old new cs skip
  | c :: cs, 0 =>
    if startsWith (c :: cs) old then new ++ ReplaceAux old new cs (old.length - 1)
    else c :: ReplaceAux old new cs 0

/-- `strings.ReplaceAll` for a non-empty `old` (the handler only ever passes
the constants `%s` and `{searchTerms}`). -/
def ReplaceAll (s old new : Str) : Str := ReplaceAux old new s 0

/-- Counting loop of `strings.Count` for a non-empty `sub`: the occurrences
are taken left to right without overlap, `skip` as in `ReplaceAux`. -/
def CountAux (sub : Str) : Str → Nat → Nat
  | [], _ => 0
  | _ :: cs, skip + 1 => CountAux sub cs skip
  | c :: cs, 0 =>
    if startsWith (c :: cs) sub then 1 + CountAux sub cs (sub.length - 1)
    else CountAux sub cs 0

/-- `strings.Count` for a non-empty `sub`. -/
def Count (s sub : Str) : Nat := CountAux sub s 0

/-! ## The database -/

/-- SQLite's `LOWER`: folds the ASCII letters only. -/
def sqlLower (s : Str) : Str :=
  s.map fun c => if 65 ≤ c.toNat ∧ c.toNat ≤ 90 then Char.ofNat (c.toNat + 32) else c

/-- A row of the `items` table. -/
structure Item where
  name : Str
  url : Str
  singleword : Int
  count : Int
  deriving DecidableEq, Repr

/-- A row of the `settings` table. -/
structure Setting where
  setting : Str
  value : Str
  deriving DecidableEq, Repr

/-- The three tables. `queries` holds the `keyword` column in insertion order. -/
structure DB where
  items : List Item
  settings : List Setting
  queries : List Str
  deriving DecidableEq, Repr

/-- What the handler sends back: the arguments of `http.Error` or of
`http.Redirect`. -/
inductive Response where
  | error (msg : Str) (code : Nat)
  | redirect (url : Str) (code : Nat)
  deriving DecidableEq, Repr

/-- The text `SELECT value FROM settings WHERE setting='fallback_url'`
scans into `fallback_url`; `none` when there is no such row. -/
def selectFallback (db : DB) : Option Str :=
  (db.settings.find? fun s => s.setting == "fallback_url".toList).map Setting.value

/-- The statement `INSERT INTO queries (keyword) VALUES (?)`. -/
def insertQuery (db : DB) (query : Str) : DB :=
  { db with queries := db.queries ++ [query] }

/-- The condition `LOWER(name) = LOWER(?)`. -/
def lowerMatch (keyword : Str) (it : Item) : Bool :=
  sqlLower it.name == sqlLower keyword

/-- The query `SELECT COUNT(name) FROM items where LOWER(name) = LOWER(?)`. -/
def countKeyword (db : DB) (keyword : Str) : Nat :=
  (db.items.filter (lowerMatch keyword)).length

/-- The query `SELECT url, singleword FROM items WHERE LOWER(name) = LOWER(?)`
read with `QueryRow`: the first matching row, `none` when there is none. -/
def selectDestination (db : DB) (keyword : Str) : Option (Str × Int) :=
  (db.items.find? (lowerMatch keyword)).map fun it => (it.url, it.singleword)

/-- The statement `UPDATE items SET count = count + 1 WHERE name = ?`. -/
def updateCount (db : DB) (keyword : Str) : DB :=
  { db with items := db.items.map fun it =>
      if it.name = keyword then { it with count := it.count + 1 } else it }

/-! ## The handler -/

/-- Message of the 400 sent when options are given to a keyword whose URL
has no placeholder. -/
def msgNoOptions (keyword destination_url : Str) : Str :=
  "The keyword ".toList ++ keyword ++ " doesn\x27t accept options as its URL ".toList
    ++ destination_url ++ " doesn\x27t have a placeholder.".toList

/-- Message of the 400 sent when a keyword whose URL has a placeholder is
given no option. -/
def msgExpectsOption (keyword destination_url : Str) : Str :=
  "The keyword ".toList ++ keyword ++ " expects an option as its URL ".toList
    ++ destination_url ++ " contains a placeholder.".toList

/-- The handler `handleRedirect`, applied to the value of the `q` parameter.
The local variables keep their names and are assigned in the order of the
source; the second test `query != ""` of the source always holds where it
stands and is not repeated. -/
def handleRedirect (db : DB) (query : Str) : DB × Response :=
  if query = [] then
    (db, .error "A query can\x27t be empty.".toList 400)
  else
  match selectFallback db with
  | none => (db, .error "Fallback URL not found.".toList 500)
  | some fallback_url =>
    let db := insertQuery db query
    let words := Fields query
    let words_counting := words.length
    let keyword : Str := if words_counting = 1 then words.getD 0 [] else []
    let keyword : Str := if words_counting = 2 then words.getD 0 [] else keyword
    let second_word : Str := if words_counting = 2 then words.getD 1 [] else []
    let keyword : Str := if words_counting ≥ 2 then words.getD 0 [] else keyword
    let second_word : Str := if words_counting ≥ 2 then words.getD 1 [] else second_word
    let second_word_and_all : Str :=
      if words_counting ≥ 2 then Join (words.drop 1) " ".toList else []
    let keyword_found := countKeyword db keyword
    let url : Str :=
      if keyword_found = 0 then ReplaceAll fallback_url "\x7bsearchTerms\x7d".toList query
      else []
    match (if keyword_found = 1 then selectDestination db keyword else some ([], 0)) with
    | none => (db, .error "Failed to retrieve destination URL.".toList 500)
    | some (destination_url, singleword) =>
      let placeholder_present := Contains destination_url "%s".toList
      let url : Str :=
        if keyword_found = 1 ∧ words_counting = 1 ∧ ¬ placeholder_present then destination_url
        else url
      if keyword_found = 1 ∧ words_counting > 1 ∧ ¬ placeholder_present then
        (db, .error (msgNoOptions keyword destination_url) 400)
      else if keyword_found = 1 ∧ words_counting = 1 ∧ placeholder_present then
        (db, .error (msgExpectsOption keyword destination_url) 400)
      else
        let url : Str :=
          if keyword_found = 1 ∧ words_counting ≥ 2 ∧ placeholder_present ∧ singleword = 1 then
            let url : Str :=
              if words_counting = 2 then ReplaceAll destination_url "%s".toList second_word
              else url
            if words_counting > 2 then
              ReplaceAll fallback_url "\x7bsearchTerms\x7d".toList query
            else url
          else url
        let url : Str :=
          if keyword_found = 1 ∧ words_counting ≥ 2 ∧ placeholder_present ∧ singleword = 0 then
            ReplaceAll destination_url "%s".toList second_word_and_all
          else url
        (updateCount db keyword, .redirect url 302)

/-! ## The handlers that write the templates -/

/-- The settings row `main` inserts when the `settings` table is empty. -/
def defaultFallback : Setting :=
  ⟨"fallback_url".toList, "https://www.duckduckgo.com/?q=\x7bsearchTerms\x7d".toList⟩

/-- The part of `main` that gives a new database its fallback engine: the
row is inserted when `SELECT COUNT(setting) FROM settings` is 0. -/
def seedSettings (db : DB) : DB :=
  let rowCount := db.settings.length
  if rowCount = 0 then { db with settings := db.settings ++ [defaultFallback] } else db

/-- The handler `handleAdd`, applied to the request method and to the form
values `name`, `url` and `singleword`.  The `INSERT` fails when the `UNIQUE`
constraint on `name`, which compares byte for byte, is violated; a new row
gets the default `count` 0. -/
def handleAdd (db : DB) (method name url singlewordvalue : Str) : DB × Response :=
  if method ≠ "POST".toList then
    (db, .error "Invalid request method.".toList 405)
  else if name = [] ∨ url = [] then
    (db, .error "Keyword and URL cannot be empty.".toList 400)
  else
    let singleword : Int := 0
    let singleword : Int := if singlewordvalue = [] then 0 else singleword
    let singleword : Int := if singlewordvalue = "on".toList then 1 else singleword
    let placeholder_count := Count url "%s".toList
    if placeholder_count > 1 then
      (db, .error "You can only have one placeholder in your URL.".toList 405)
    else if db.items.any (fun it => it.name == name) then
      (db, .error "Failed to add shortlink. Ensure the keyword is unique.".toList 500)
    else
      ({ db with items := db.items ++ [⟨name, url, singleword, 0⟩] }, .redirect "/".toList 303)

/-- The handler `handleModPost`, applied to the keyword taken from the path
and to the form values `name`, `url` and `singleword`.  The `UPDATE` fails
when it would give a row the name of another row. -/
def handleModPost (db : DB) (name newName url singleword : Str) : DB × Response :=
  if name = [] then
    (db, .error "Keyword is required to modify a link.".toList 400)
  else
    let singlewordvalue : Int := if singleword = "on".toList then 1 else 0
    if newName = [] ∨ url = [] then
      (db, .error "Keyword and URL cannot be empty.".toList 400)
    else if db.items.any (fun it => it.name == name) ∧ newName ≠ name
        ∧ db.items.any (fun it => it.name == newName) then
      (db, .error "Failed to update the link.".toList 500)
    else
      ({ db with items := db.items.map fun it =>
          if it.name = name then ⟨newName, url, singlewordvalue, it.count⟩ else it },
        .redirect "/".toList 303)

/-- The handler `handleFallbackPost`, applied to the form value `url`. -/
def handleFallbackPost (db : DB) (url : Str) : DB × Response :=
  if url = [] then
    (db, .error "Fallback URL cannot be empty.".toList 400)
  else
    let placeholder_count := Count url "\x7bsearchTerms\x7d".toList
    if placeholder_count ≠ 1 then
      (db, .error "You need exactly one \x7bsearchTerms\x7d in your fallback URL.".toList 405)
    else
      ({ db with settings := db.settings.map fun s =>
          if s.setting = "fallback_url".toList then { s with value := url } else s },
        .redirect "/".toList 303)

/-! ## The shape of a query -/

/-- A word: a non-empty text without white space. -/
def IsWord (w : Str) : Prop := w ≠ [] ∧ ∀ c ∈ w, isSpace c = false

instance (w : Str) : Decidable (IsWord w) := by unfold IsWord; infer_instance

/-- A run of white space, possibly empty. -/
def IsBlank (s : Str) : Prop := ∀ c ∈ s, isSpace c = true

instance (s : Str) : Decidable (IsBlank s) := by unfold IsBlank; infer_instance

/-- The options part of a query: each option word preceded by its separator. -/
def optionsText : List (Str × Str) → Str
  | [] => []
  | p :: r => p.1 ++ p.2 ++ optionsText r

/-- The text of a query: leading white space, the keyword, the options each
preceded by a separator, trailing white space. -/
def queryText (lead kw : Str) (opts : List (Str × Str)) (trail : Str) : Str :=
  lead ++ kw ++ optionsText opts ++ trail

/-- Each separator is a non-empty run of white space and each option a word. -/
def IsOptions (opts : List (Str × Str)) : Prop :=
  ∀ p ∈ opts, (p.1 ≠ [] ∧ IsBlank p.1) ∧ IsWord p.2

instance (opts : List (Str × Str)) : Decidable (IsOptions opts) := by
  unfold IsOptions; infer_instance

/-! ## The decision table of `handleRedirect` -/

/-- The response of `handleRedirect` as a function of what it reads: the
fallback template, the query, its first word and further words, the number of
rows matching the first word, and the row the lookup returns.  It is shown
below to be the response of the handler; it is not a second model. -/
def resolve (fallback_url query keyword : Str) (options : List Str) (keyword_found : Nat)
    (row : Option (Str × Int)) : Response :=
  if keyword_found = 0 then
    .redirect (ReplaceAll fallback_url "\x7bsearchTerms\x7d".toList query) 302
  else if keyword_found = 1 then
    match row with
    | none => .error "Failed to retrieve destination URL.".toList 500
    | some (destination_url, singleword) =>
      if Contains destination_url "%s".toList = true then
        match options with
        | [] => .error (msgExpectsOption keyword destination_url) 400
        | [o] =>
          if singleword = 1 ∨ singleword = 0 then
            .redirect (ReplaceAll destination_url "%s".toList o) 302
          else .redirect [] 302
        | o :: o2 :: r =>
          if singleword = 1 then
            .redirect (ReplaceAll fallback_url "\x7bsearchTerms\x7d".toList query) 302
          else if singleword = 0 then
            .redirect (ReplaceAll destination_url "%s".toList
              (Join (o :: o2 :: r) " ".toList)) 302
          else .redirect [] 302
      else
        match options with
        | [] => .redirect destination_url 302
        | _ :: _ => .error (msgNoOptions keyword destination_url) 400
  else .redirect [] 302

/-! ## Reading the option text back -/

/-- What is left of a text once as many characters as `p` has are removed
at its front and as many as `s` has at its end. -/
def stripAffixes (p s target : Str) : Str :=
  (target.drop p.length).take (target.length - p.length - s.length)

/-! ## A sample database -/

/-- The three shortcuts `main` inserts into an empty database, the `docker`
shortcut of the help page with the single-word option set, and DuckDuckGo as
the fallback engine. -/
def sampleDB : DB where
  items :=
    [ ⟨"b".toList, "https://www.bbc.com".toList, 0, 0⟩,
      ⟨"bb".toList, "https://www.bbc.com/news/world/%s".toList, 0, 0⟩,
      ⟨"bbc".toList, "https://www.bbc.com/search?q=%s".toList, 0, 0⟩,
      ⟨"docker".toList, "https://hub.docker.com/search?q=%s".toList, 1, 0⟩ ]
  settings := [⟨"fallback_url".toList, "https://duckduckgo.com/?q=\x7bsearchTerms\x7d".toList⟩]
  queries := []

/-! ## Basic facts about the tables -/

@[simp] theorem selectFallback_insertQuery (db : DB) (q : Str) :
    selectFallback (insertQuery db q) = selectFallback db := rfl

@[simp] theorem items_insertQuery (db : DB) (q : Str) :
    (insertQuery db q).items = db.items := rfl

@[simp] theorem countKeyword_insertQuery (db : DB) (q k : Str) :
    countKeyword (insertQuery db q) k = countKeyword db k := rfl

@[simp] theorem selectDestination_insertQuery (db : DB) (q k : Str) :
    selectDestination (insertQuery db q) k = selectDestination db k := rfl

theorem countKeyword_eq_zero (db : DB) (k : Str)
    (h : ∀ it ∈ db.items, sqlLower it.name ≠ sqlLower k) : countKeyword db k = 0 := by
  unfold countKeyword
  rw [List.length_eq_zero, List.filter_eq_nil_iff]
  intro it hit
  simpa [lowerMatch] using h it hit

/-- An update keyed on a word that no row carries changes no row. -/
theorem updateCount_of_absent (db : DB) (k : Str) (h : ∀ it ∈ db.items, it.name ≠ k) :
    (updateCount db k).items = db.items := by
  unfold updateCount
  simp only
  conv_rhs => rw [← List.map_id db.items]
  apply List.map_congr_left
  intro it hit
  simp [h it hit]

/-! ## Splitting a query into words -/

theorem FieldsAux_word (w rest cur : Str) (hw : ∀ c ∈ w, isSpace c = false) :
    FieldsAux (w ++ rest) cur = FieldsAux rest (cur ++ w) := by
  induction w generalizing cur with
  | nil => simp
  | cons c cs ih =>
    have hc : isSpace c = false := hw c (List.mem_cons_self _ _)
    have hcs : ∀ d ∈ cs, isSpace d = false := fun d hd => hw d (List.mem_cons_of_mem _ hd)
    simp [FieldsAux, hc, ih _ hcs]

theorem FieldsAux_blank (s rest : Str) (hs : IsBlank s) :
    FieldsAux (s ++ rest) [] = FieldsAux rest [] := by
  induction s with
  | nil => simp
  | cons c cs ih =>
    have hc : isSpace c = true := hs c (List.mem_cons_self _ _)
    have hcs : IsBlank cs := fun d hd => hs d (List.mem_cons_of_mem _ hd)
    simp [FieldsAux, hc, ih hcs]

theorem FieldsAux_blank_flush (s rest cur : Str) (hs : IsBlank s) (hne : s ≠ [])
    (hcur : cur ≠ []) : FieldsAux (s ++ rest) cur = cur :: FieldsAux rest [] := by
  cases s with
  | nil => exact absurd rfl hne
  | cons c cs =>
    have hc : isSpace c = true := hs c (List.mem_cons_self _ _)
    have hcs : IsBlank cs := fun d hd => hs d (List.mem_cons_of_mem _ hd)
    simp [FieldsAux, hc, hcur, FieldsAux_blank cs rest hcs]

theorem FieldsAux_trail (s cur : Str) (hs : IsBlank s) (hcur : cur ≠ []) :
    FieldsAux s cur = [cur] := by
  cases s with
  | nil => simp [FieldsAux, hcur]
  | cons c cs =>
    have h := FieldsAux_blank_flush (c :: cs) [] cur hs (by simp) hcur
    simp only [List.append_nil] at h
    rw [h]
    simp [FieldsAux]

theorem FieldsAux_options (opts : List (Str × Str)) (trail cur : Str)
    (ho : IsOptions opts) (ht : IsBlank trail) (hcur : cur ≠ []) :
    FieldsAux (optionsText opts ++ trail) cur = cur :: opts.map Prod.snd := by
  induction opts generalizing cur with
  | nil => simpa [optionsText] using FieldsAux_trail trail cur ht hcur
  | cons p r ih =>
    obtain ⟨⟨hne, hb⟩, hw⟩ := ho p (List.mem_cons_self _ _)
    have hr : IsOptions r := fun q hq => ho q (List.mem_cons_of_mem _ hq)
    have e : optionsText (p :: r) ++ trail = p.1 ++ (p.2 ++ (optionsText r ++ trail)) := by
      simp [optionsText]
    rw [e, FieldsAux_blank_flush _ _ _ hb hne hcur, FieldsAux_word _ _ _ hw.2]
    simp [ih _ hr hw.1]

/-- The words of a query are its keyword followed by its options, whatever
the white space between and around them. -/
theorem Fields_queryText (lead kw : Str) (opts : List (Str × Str)) (trail : Str)
    (hl : IsBlank lead) (hk : IsWord kw) (ho : IsOptions opts) (ht : IsBlank trail) :
    Fields (queryText lead kw opts trail) = kw :: opts.map Prod.snd := by
  have e : queryText lead kw opts trail = lead ++ (kw ++ (optionsText opts ++ trail)) := by
    simp [queryText]
  rw [Fields, e, FieldsAux_blank _ _ hl, FieldsAux_word _ _ _ hk.2]
  simpa using FieldsAux_options opts trail kw ho ht hk.1

theorem queryText_ne_nil (lead kw : Str) (opts : List (Str × Str)) (trail : Str)
    (hk : IsWord kw) : queryText lead kw opts trail ≠ [] := by
  have := hk.1
  simp [queryText, this]

/-! ## Looking up a keyword that exactly one row matches -/

theorem find?_eq_head?_filter {α : Type} (p : α → Bool) (l : List α) :
    l.find? p = (l.filter p).head? := by
  induction l with
  | nil => rfl
  | cons a t ih =>
    by_cases h : p a = true
    · rw [List.find?_cons, List.filter_cons, h]
      rfl
    · have hf : p a = false := by simpa using h
      rw [List.find?_cons, List.filter_cons, hf]
      exact ih

theorem countKeyword_of_single (db : DB) (k : Str) (it : Item)
    (h : db.items.filter (lowerMatch k) = [it]) : countKeyword db k = 1 := by
  simp [countKeyword, h]

theorem selectDestination_of_single (db : DB) (k : Str) (it : Item)
    (h : db.items.filter (lowerMatch k) = [it]) :
    selectDestination db k = some (it.url, it.singleword) := by
  simp [selectDestination, find?_eq_head?_filter, h]

theorem ne_nil_of_Fields_cons (query w : Str) (ws : List Str)
    (h : Fields query = w :: ws) : query ≠ [] := by
  intro hq
  rw [hq] at h
  simp [Fields, FieldsAux] at h

theorem name_ne_of_lower_ne (k : Str) (it : Item)
    (h : sqlLower it.name ≠ sqlLower k) : it.name ≠ k := by
  intro e
  exact h (by rw [e])

/-- When exactly one row matches a word up to case and carries that very
word as its name, the update keyed on the word touches that row alone. -/
theorem updateCount_of_single (db : DB) (k : Str) (it : Item)
    (hm : db.items.filter (lowerMatch k) = [it]) (hn : it.name = k) :
    (updateCount db k).items
      = db.items.map fun x => if x = it then { it with count := it.count + 1 } else x := by
  unfold updateCount
  simp only
  apply List.map_congr_left
  intro x hx
  by_cases hxk : x.name = k
  · have hmem : x ∈ db.items.filter (lowerMatch k) := by
      rw [List.mem_filter]
      exact ⟨hx, by simp [lowerMatch, hxk]⟩
    rw [hm, List.mem_singleton] at hmem
    simp [hmem, hn]
  · have hne : x ≠ it := fun e => hxk (by rw [e, hn])
    simp [hxk, hne]

/-! ## The first word of a query -/

theorem FieldsAux_flush_tail (tail cur : Str) (ht : ∀ c ∈ tail.head?, isSpace c = true)
    (hcur : cur ≠ []) : FieldsAux tail cur = cur :: Fields tail := by
  cases tail with
  | nil => simp [Fields, FieldsAux, hcur]
  | cons c cs =>
    have hc : isSpace c = true := ht c (by simp)
    simp [Fields, FieldsAux, hc, hcur]

/-- The first word of a text that opens with white space and a word; what
follows the word is empty or starts with a white-space character. -/
theorem Fields_first_word (lead kw tail : Str) (hl : IsBlank lead) (hk : IsWord kw)
    (ht : ∀ c ∈ tail.head?, isSpace c = true) :
    Fields (lead ++ kw ++ tail) = kw :: Fields tail := by
  have e : lead ++ kw ++ tail = lead ++ (kw ++ tail) := by simp
  rw [Fields, e, FieldsAux_blank _ _ hl, FieldsAux_word _ _ _ hk.2]
  simpa using FieldsAux_flush_tail tail kw ht hk.1

theorem lowerMatch_congr (k1 k2 : Str) (h : sqlLower k1 = sqlLower k2) :
    lowerMatch k1 = lowerMatch k2 := by
  funext it
  simp [lowerMatch, h]

/-- The response of the handler is the one the decision table gives. -/
theorem handleRedirect_resolve (db : DB) (query fallback_url keyword : Str)
    (options : List Str)
    (hf : selectFallback db = some fallback_url)
    (hw : Fields query = keyword :: options) :
    (handleRedirect db query).2
      = resolve fallback_url query keyword options (countKeyword db keyword)
          (selectDestination db keyword) := by
  have hq := ne_nil_of_Fields_cons _ _ _ hw
  unfold handleRedirect resolve
  rcases hn : countKeyword db keyword with _ | _ | n
  · rcases options with _ | ⟨o, _ | ⟨o2, rest⟩⟩ <;> simp [hq, hw, hf, hn]
  · rcases hd : selectDestination db keyword with _ | ⟨d, sw⟩
    · rcases options with _ | ⟨o, _ | ⟨o2, rest⟩⟩ <;> simp [hq, hw, hf, hn, hd]
    · cases hp : Contains d ['%', 's'] <;>
        rcases options with _ | ⟨o, _ | ⟨o2, rest⟩⟩ <;>
        by_cases h1 : sw = 1 <;> by_cases h0 : sw = 0 <;>
        first
          | omega
          | simp [hq, hw, hf, hn, hd, hp, h1, h0, Join]
  · rcases options with _ | ⟨o, _ | ⟨o2, rest⟩⟩ <;> simp [hq, hw, hf, hn]

/-! ## Facts about the handlers that write the templates -/

/-- Whatever the request, `handleAdd` refuses a URL with two or more `%s`
and leaves the database as it was. -/
theorem handleAdd_rejects_placeholders (db : DB) (method name url singlewordvalue : Str)
    (h : Count url "%s".toList > 1) :
    (handleAdd db method name url singlewordvalue).1 = db
    ∧ ∃ msg code, (handleAdd db method name url singlewordvalue).2 = .error msg code := by
  unfold handleAdd
  dsimp only
  split_ifs
  all_goals exact ⟨rfl, _, _, rfl⟩

theorem find?_value_map (k url : Str) (l : List Setting) :
    ((l.map fun s => if s.setting = k then { s with value := url } else s).find?
        fun s => s.setting == k).map Setting.value
      = ((l.find? fun s => s.setting == k).map Setting.value).map fun _ => url := by
  induction l with
  | nil => rfl
  | cons s t ih =>
    rw [List.map_cons, List.find?_cons, List.find?_cons]
    by_cases h : s.setting = k
    · have hb : (s.setting == k) = true := by simpa using h
      rw [if_pos h]
      rw [hb]
      rfl
    · have hb : (s.setting == k) = false := by simpa using h
      rw [if_neg h, hb]
      exact ih

/-- After an accepted `handleFallbackPost` the fallback row, if there is one,
holds the submitted URL. -/
theorem selectFallback_update (db : DB) (url : Str) :
    selectFallback { db with settings := db.settings.map fun s =>
        if s.setting = "fallback_url".toList then { s with value := url } else s }
      = (selectFallback db).map fun _ => url :=
  find?_value_map "fallback_url".toList url db.settings

/-! ## Searching and replacing a token

The token is written `h :: t`.  Where it matters, `h` does not occur in `t`:
then no occurrence of the token overlaps another one.  Both `%s` and
`{searchTerms}` are of this kind. -/

theorem startsWith_append_self (p r : Str) : startsWith (p ++ r) p = true := by
  induction p with
  | nil => cases r <;> rfl
  | cons c cs ih => simp [startsWith, ih]

theorem startsWith_append_right (s p r : Str) (h : startsWith s p = true) :
    startsWith (s ++ r) p = true := by
  induction p generalizing s with
  | nil => cases s <;> cases r <;> rfl
  | cons c cs ih =>
    cases s with
    | nil => simp [startsWith] at h
    | cons d ds =>
      simp only [startsWith, Bool.and_eq_true] at h
      simp [startsWith, h.1, ih ds h.2]

theorem startsWith_split (s p : Str) (h : startsWith s p = true) : ∃ r, s = p ++ r := by
  induction p generalizing s with
  | nil => exact ⟨s, rfl⟩
  | cons c cs ih =>
    cases s with
    | nil => simp [startsWith] at h
    | cons d ds =>
      simp only [startsWith, Bool.and_eq_true, beq_iff_eq] at h
      obtain ⟨r, hr⟩ := ih ds h.2
      exact ⟨r, by rw [h.1, hr]; rfl⟩

theorem startsWith_of_append (a b p : Str) (h : startsWith (a ++ b) p = true)
    (hl : p.length ≤ a.length) : startsWith a p = true := by
  induction p generalizing a with
  | nil => cases a <;> rfl
  | cons c cs ih =>
    cases a with
    | nil => simp at hl
    | cons d ds =>
      simp only [List.cons_append, startsWith, Bool.and_eq_true] at h
      simp only [List.length_cons, Nat.add_le_add_iff_right] at hl
      simp [startsWith, h.1, ih ds h.2 hl]

/-- A match that begins before a given character and runs past it puts that
character inside the pattern. -/
theorem startsWith_reaches (a r p : Str) (x : Char) (h : startsWith (a ++ x :: r) p = true)
    (hl : a.length < p.length) : p.get? a.length = some x := by
  induction a generalizing p with
  | nil =>
    cases p with
    | nil => simp at hl
    | cons c cs =>
      simp only [List.nil_append, startsWith, Bool.and_eq_true, beq_iff_eq] at h
      simp [h.1]
  | cons d ds ih =>
    cases p with
    | nil => simp at hl
    | cons c cs =>
      simp only [List.cons_append, startsWith, Bool.and_eq_true] at h
      simp only [List.length_cons, Nat.add_lt_add_iff_right] at hl
      simpa using ih cs h.2 hl

theorem ReplaceAux_skip (old new a b : Str) :
    ReplaceAux old new (a ++ b) a.length = ReplaceAux old new b 0 := by
  induction a with
  | nil => rfl
  | cons c cs ih => simpa [ReplaceAux] using ih

theorem CountAux_skip (sub a b : Str) : CountAux sub (a ++ b) a.length = CountAux sub b 0 := by
  induction a with
  | nil => rfl
  | cons c cs ih => simpa [CountAux] using ih

theorem Contains_cons_false (c : Char) (cs sub : Str) (h : Contains (c :: cs) sub = false) :
    startsWith (c :: cs) sub = false ∧ Contains cs sub = false := by
  simpa [Contains] using h

/-- Before a token, a text without the token holds no start of a match. -/
theorem startsWith_before_token (h : Char) (t : Str) (hb : h ∉ t) (c : Char) (p r : Str)
    (hp : Contains (c :: p) (h :: t) = false) :
    startsWith (c :: p ++ (h :: t ++ r)) (h :: t) = false := by
  cases hs : startsWith (c :: p ++ (h :: t ++ r)) (h :: t) with
  | false => rfl
  | true =>
    exfalso
    by_cases hl : (h :: t).length ≤ (c :: p).length
    · have := startsWith_of_append (c :: p) (h :: t ++ r) (h :: t) hs hl
      rw [(Contains_cons_false c p _ hp).1] at this
      cases this
    · have hlt : (c :: p).length < (h :: t).length := Nat.lt_of_not_le hl
      have hg := startsWith_reaches (c :: p) (t ++ r) (h :: t) h hs hlt
      simp only [List.length_cons, List.get?_cons_succ] at hg
      exact hb (List.get?_mem hg)

theorem ReplaceAux_clean (old new s : Str) (hs : Contains s old = false) :
    ReplaceAux old new s 0 = s := by
  induction s with
  | nil => rfl
  | cons c cs ih =>
    obtain ⟨h1, h2⟩ := Contains_cons_false c cs old hs
    simp [ReplaceAux, h1, ih h2]

theorem CountAux_clean (sub s : Str) (hs : Contains s sub = false) : CountAux sub s 0 = 0 := by
  induction s with
  | nil => rfl
  | cons c cs ih =>
    obtain ⟨h1, h2⟩ := Contains_cons_false c cs sub hs
    simp [CountAux, h1, ih h2]

theorem Contains_of_CountAux_zero (h : Char) (t s : Str) (hc : CountAux (h :: t) s 0 = 0) :
    Contains s (h :: t) = false := by
  induction s with
  | nil => rfl
  | cons c cs ih =>
    cases hs : startsWith (c :: cs) (h :: t) with
    | true => simp [CountAux, hs] at hc
    | false =>
      simp only [CountAux, hs] at hc
      simp [Contains, hs, ih hc]

theorem ReplaceAux_cons_zero (old new : Str) (c : Char) (cs : Str) :
    ReplaceAux old new (c :: cs) 0
      = if startsWith (c :: cs) old then new ++ ReplaceAux old new cs (old.length - 1)
        else c :: ReplaceAux old new cs 0 := by
  rw [ReplaceAux]

theorem CountAux_cons_zero (sub : Str) (c : Char) (cs : Str) :
    CountAux sub (c :: cs) 0
      = if startsWith (c :: cs) sub then 1 + CountAux sub cs (sub.length - 1)
        else CountAux sub cs 0 := by
  rw [CountAux]

/-- The scan copies a text without the token, replaces the token that
follows it, and goes on behind that token. -/
theorem ReplaceAux_token (h : Char) (t : Str) (hb : h ∉ t) (new p r : Str)
    (hp : Contains p (h :: t) = false) :
    ReplaceAux (h :: t) new (p ++ (h :: t ++ r)) 0
      = p ++ (new ++ ReplaceAux (h :: t) new r 0) := by
  induction p with
  | nil =>
    have hs : startsWith (h :: (t ++ r)) (h :: t) = true := startsWith_append_self (h :: t) r
    show ReplaceAux (h :: t) new (h :: (t ++ r)) 0 = new ++ _
    rw [ReplaceAux_cons_zero, if_pos hs]
    show new ++ ReplaceAux (h :: t) new (t ++ r) t.length = _
    rw [ReplaceAux_skip]
  | cons c cs ih =>
    have hs : startsWith (c :: (cs ++ (h :: t ++ r))) (h :: t) = false :=
      startsWith_before_token h t hb c cs r hp
    show ReplaceAux (h :: t) new (c :: (cs ++ (h :: t ++ r))) 0 = c :: (cs ++ _)
    rw [ReplaceAux_cons_zero, if_neg (by rw [hs]; exact Bool.false_ne_true),
      ih (Contains_cons_false c cs _ hp).2]

theorem CountAux_token (h : Char) (t : Str) (hb : h ∉ t) (p r : Str)
    (hp : Contains p (h :: t) = false) :
    CountAux (h :: t) (p ++ (h :: t ++ r)) 0 = 1 + CountAux (h :: t) r 0 := by
  induction p with
  | nil =>
    have hs : startsWith (h :: (t ++ r)) (h :: t) = true := startsWith_append_self (h :: t) r
    show CountAux (h :: t) (h :: (t ++ r)) 0 = _
    rw [CountAux_cons_zero, if_pos hs]
    show 1 + CountAux (h :: t) (t ++ r) t.length = _
    rw [CountAux_skip]
  | cons c cs ih =>
    have hs : startsWith (c :: (cs ++ (h :: t ++ r))) (h :: t) = false :=
      startsWith_before_token h t hb c cs r hp
    show CountAux (h :: t) (c :: (cs ++ (h :: t ++ r))) 0 = _
    rw [CountAux_cons_zero, if_neg (by rw [hs]; exact Bool.false_ne_true),
      ih (Contains_cons_false c cs _ hp).2]

/-- A text that contains the token splits at its first occurrence. -/
theorem Contains_leftmost (h : Char) (t s : Str) (hs : Contains s (h :: t) = true) :
    ∃ a b, s = a ++ (h :: t ++ b) ∧ Contains a (h :: t) = false := by
  induction s with
  | nil => simp [Contains, startsWith] at hs
  | cons c cs ih =>
    cases hw : startsWith (c :: cs) (h :: t) with
    | true =>
      obtain ⟨r, hr⟩ := startsWith_split _ _ hw
      exact ⟨[], r, by simpa using hr, rfl⟩
    | false =>
      have hc : Contains cs (h :: t) = true := by simpa [Contains, hw] using hs
      obtain ⟨a, b, hab, ha⟩ := ih hc
      refine ⟨c :: a, b, by rw [hab]; rfl, ?_⟩
      cases hca : startsWith (c :: a) (h :: t) with
      | true =>
        have := startsWith_append_right (c :: a) (h :: t) (h :: t ++ b) hca
        rw [List.cons_append, ← hab, hw] at this
        cases this
      | false => simp [Contains, hca, ha]

theorem Contains_token (h : Char) (t a b : Str) : Contains (a ++ (h :: t ++ b)) (h :: t) = true := by
  induction a with
  | nil =>
    have hs := startsWith_append_self (h :: t) b
    simp only [List.cons_append] at hs
    simp [Contains, hs]
  | cons c cs ih =>
    show (startsWith _ _ || Contains (cs ++ (h :: t ++ b)) (h :: t)) = true
    rw [ih, Bool.or_true]

/-- A text with exactly one occurrence of the token has none before and none
behind that occurrence. -/
theorem clean_of_Count_one (h : Char) (t : Str) (hb : h ∉ t) (p s : Str)
    (hc : Count (p ++ (h :: t ++ s)) (h :: t) = 1) :
    Contains p (h :: t) = false ∧ Contains s (h :: t) = false := by
  have hp : Contains p (h :: t) = false := by
    cases hcp : Contains p (h :: t) with
    | false => rfl
    | true =>
      exfalso
      obtain ⟨a, b, hab, ha⟩ := Contains_leftmost h t p hcp
      have e : p ++ (h :: t ++ s) = a ++ (h :: t ++ (b ++ (h :: t ++ s))) := by
        rw [hab]; simp
      rw [Count, e, CountAux_token h t hb a _ ha] at hc
      have h0 : CountAux (h :: t) (b ++ (h :: t ++ s)) 0 = 0 := by omega
      have := Contains_of_CountAux_zero h t _ h0
      rw [Contains_token] at this
      cases this
  refine ⟨hp, ?_⟩
  rw [Count, CountAux_token h t hb p s hp] at hc
  exact Contains_of_CountAux_zero h t s (by omega)

/-- A text with exactly one occurrence of the token splits around it. -/
theorem split_of_Count_one (h : Char) (t : Str) (hb : h ∉ t) (s : Str)
    (hc : Count s (h :: t) = 1) :
    ∃ p r, s = p ++ (h :: t ++ r) ∧ Contains p (h :: t) = false
      ∧ Contains r (h :: t) = false := by
  have hs : Contains s (h :: t) = true := by
    cases hcs : Contains s (h :: t) with
    | true => rfl
    | false =>
      rw [Count, CountAux_clean _ _ hcs] at hc
      cases hc
  obtain ⟨a, b, hab, _⟩ := Contains_leftmost h t s hs
  rw [hab] at hc
  exact ⟨a, b, hab, clean_of_Count_one h t hb a b hc⟩

/-- Replacing the token in a text that has it once puts the new text in its
place. -/
theorem ReplaceAll_token (h : Char) (t : Str) (hb : h ∉ t) (new p s : Str)
    (hp : Contains p (h :: t) = false) (hs : Contains s (h :: t) = false) :
    ReplaceAll (p ++ (h :: t ++ s)) (h :: t) new = p ++ (new ++ s) := by
  rw [ReplaceAll, ReplaceAux_token h t hb new p s hp, ReplaceAux_clean _ _ _ hs]

/-- Replacing the token in pieces joined by the token joins the pieces by
the new text: every occurrence is replaced. -/
theorem ReplaceAll_Join (h : Char) (t : Str) (hb : h ∉ t) (new : Str) (pieces : List Str)
    (hp : ∀ p ∈ pieces, Contains p (h :: t) = false) :
    ReplaceAll (Join pieces (h :: t)) (h :: t) new = Join pieces new := by
  induction pieces with
  | nil => rfl
  | cons w ws ih =>
    cases ws with
    | nil => exact ReplaceAux_clean _ _ _ (hp w (List.mem_cons_self _ _))
    | cons v vs =>
      have hw := hp w (List.mem_cons_self _ _)
      have ih2 := ih fun p hm => hp p (List.mem_cons_of_mem _ hm)
      have e : Join (w :: v :: vs) (h :: t) = w ++ (h :: t ++ Join (v :: vs) (h :: t)) := by
        simp [Join]
      rw [ReplaceAll, e, ReplaceAux_token h t hb new w _ hw]
      rw [ReplaceAll] at ih2
      rw [ih2]
      simp [Join]

/-! ## Filling the placeholders -/

theorem percent_s_head : '%' ∉ ['s'] := by decide

theorem searchTerms_head : '\x7b' ∉ "searchTerms\x7d".toList := by decide

/-- A fallback template with exactly one `{searchTerms}` splits around it,
and substitution puts the text in its place. -/
theorem fallback_target (fallback_url : Str)
    (hc : Count fallback_url "\x7bsearchTerms\x7d".toList = 1) :
    ∃ p s, fallback_url = p ++ "\x7bsearchTerms\x7d".toList ++ s
      ∧ Contains p "\x7bsearchTerms\x7d".toList = false
      ∧ Contains s "\x7bsearchTerms\x7d".toList = false
      ∧ ∀ q, ReplaceAll fallback_url "\x7bsearchTerms\x7d".toList q = p ++ q ++ s := by
  obtain ⟨p, s, e, hp, hs⟩ :=
    split_of_Count_one '\x7b' "searchTerms\x7d".toList searchTerms_head fallback_url hc
  refine ⟨p, s, by rw [e]; simp, hp, hs, fun q => ?_⟩
  have := ReplaceAll_token '\x7b' "searchTerms\x7d".toList searchTerms_head q p s hp hs
  rw [e, List.append_assoc]
  exact this

/-- A destination that contains `%s`, and not more than once, splits around
it, and substitution puts the text in its place. -/
theorem placeholder_target (destination_url : Str)
    (hp : Contains destination_url "%s".toList = true)
    (hc : Count destination_url "%s".toList ≤ 1) :
    ∃ p s, destination_url = p ++ "%s".toList ++ s
      ∧ Contains p "%s".toList = false ∧ Contains s "%s".toList = false
      ∧ ∀ o, ReplaceAll destination_url "%s".toList o = p ++ o ++ s := by
  obtain ⟨p, s, e, hcp⟩ := Contains_leftmost '%' ['s'] destination_url hp
  have h1 : Count destination_url ('%' :: ['s']) ≤ 1 := hc
  rw [Count, e, CountAux_token '%' ['s'] percent_s_head p s hcp] at h1
  have hcs := Contains_of_CountAux_zero '%' ['s'] s (by omega)
  refine ⟨p, s, by rw [e]; simp, hcp, hcs, fun o => ?_⟩
  have := ReplaceAll_token '%' ['s'] percent_s_head o p s hcp hcs
  rw [e, List.append_assoc]
  exact this

theorem mem_of_selectDestination (db : DB) (k d : Str) (sw : Int)
    (h : selectDestination db k = some (d, sw)) :
    ∃ it ∈ db.items, it.url = d ∧ it.singleword = sw := by
  unfold selectDestination at h
  cases hf : db.items.find? (lowerMatch k) with
  | none => rw [hf] at h; cases h
  | some it =>
    rw [hf] at h
    simp only [Option.map_some', Option.some.injEq, Prod.mk.injEq] at h
    exact ⟨it, List.mem_of_find?_eq_some hf, h.1, h.2⟩

/-- The response to a non-empty query without words, i.e. of white space. -/
theorem handleRedirect_no_words (db : DB) (query fallback_url : Str) (hq : query ≠ [])
    (hf : selectFallback db = some fallback_url) (hw : Fields query = []) :
    (handleRedirect db query).2
      = if countKeyword db [] = 0 then
          .redirect (ReplaceAll fallback_url "\x7bsearchTerms\x7d".toList query) 302
        else .redirect [] 302 := by
  unfold handleRedirect
  rcases hn : countKeyword db [] with _ | _ | n
  · simp [hq, hf, hw, hn]
  · obtain ⟨it, hit⟩ := List.length_eq_one.mp hn
    have hd := selectDestination_of_single db [] it hit
    simp [hq, hf, hw, hn, hd]
  · simp [hq, hf, hw, hn]

/-- The direct redirect through a shortcut with a placeholder: the target is
the destination with `%s` replaced by the options joined by single spaces. -/
theorem handleRedirect_direct (db : DB) (query fallback_url kw : Str) (opts : List Str)
    (it : Item)
    (hf : selectFallback db = some fallback_url)
    (hw : Fields query = kw :: opts) (hopts : opts ≠ [])
    (hm : db.items.filter (lowerMatch kw) = [it])
    (hp : Contains it.url "%s".toList = true)
    (hs : it.singleword = 0 ∨ (it.singleword = 1 ∧ opts.length = 1)) :
    (handleRedirect db query).2
      = .redirect (ReplaceAll it.url "%s".toList (Join opts " ".toList)) 302 := by
  rw [handleRedirect_resolve db _ _ _ _ hf hw, countKeyword_of_single db kw it hm,
    selectDestination_of_single db kw it hm]
  unfold resolve
  rw [if_neg (by decide), if_pos rfl]
  simp only [hp, if_true]
  rcases opts with _ | ⟨o, _ | ⟨o2, r⟩⟩
  · exact absurd rfl hopts
  · rcases hs with h0 | ⟨h1, _⟩
    · simp [h0, Join]
    · simp [h1, Join]
  · rcases hs with h0 | ⟨_, hl⟩
    · simp [h0]
    · simp at hl

/-! ## Claims -/

/-- C1. A non-empty query whose first word equals no stored keyword up to
ASCII case is answered by a redirect (status 302), never by an error, and the
target is the fallback template in which `{searchTerms}` is replaced by the
whole query text as typed. -/
theorem handleRedirect_unmatched_fallback (db : DB) (query fallback_url : Str)
    (hq : query ≠ [])
    (hf : selectFallback db = some fallback_url)
    (hk : ∀ it ∈ db.items, sqlLower it.name ≠ sqlLower ((Fields query).headD [])) :
    (handleRedirect db query).2
      = .redirect (ReplaceAll fallback_url "\x7bsearchTerms\x7d".toList query) 302 := by
  unfold handleRedirect
  have h0 := countKeyword_eq_zero db _ hk
  rcases hw : Fields query with _ | ⟨a, _ | ⟨b, rest⟩⟩ <;> rw [hw] at h0 <;>
    simp only [List.headD_nil, List.headD_cons] at h0 <;> simp [hq, hf, h0]

/-- C1, at the sample database: `banana split` goes to the fallback engine. -/
theorem handleRedirect_unmatched_fallback_witness :
    "banana split".toList ≠ []
    ∧ selectFallback sampleDB = some "https://duckduckgo.com/?q=\x7bsearchTerms\x7d".toList
    ∧ (∀ it ∈ sampleDB.items,
        sqlLower it.name ≠ sqlLower ((Fields "banana split".toList).headD []))
    ∧ (handleRedirect sampleDB "banana split".toList).2
        = .redirect "https://duckduckgo.com/?q=banana split".toList 302 :=
  ⟨by decide, by decide, by decide,
    (handleRedirect_unmatched_fallback sampleDB "banana split".toList
      "https://duckduckgo.com/?q=\x7bsearchTerms\x7d".toList
      (by decide) (by decide) (by decide)).trans (by decide)⟩

/-- C2. A query made of a keyword and one or more option words, with any
white space between and around them, whose keyword is matched by exactly one
shortcut that has `singleword = 0` and a URL containing `%s`, is redirected
to that URL with `%s` replaced by the option words joined by single spaces. -/
theorem handleRedirect_multiword_options (db : DB) (fallback_url lead kw trail : Str)
    (opts : List (Str × Str)) (it : Item)
    (hf : selectFallback db = some fallback_url)
    (hl : IsBlank lead) (hk : IsWord kw) (ho : IsOptions opts) (ht : IsBlank trail)
    (hopts : opts ≠ [])
    (hm : db.items.filter (lowerMatch kw) = [it])
    (hs : it.singleword = 0)
    (hp : Contains it.url "%s".toList = true) :
    (handleRedirect db (queryText lead kw opts trail)).2
      = .redirect (ReplaceAll it.url "%s".toList (Join (opts.map Prod.snd) " ".toList)) 302 := by
  have hw := Fields_queryText lead kw opts trail hl hk ho ht
  have hq := queryText_ne_nil lead kw opts trail hk
  have h1 := countKeyword_of_single db kw it hm
  have h2 := selectDestination_of_single db kw it hm
  unfold handleRedirect
  cases opts with
  | nil => exact absurd rfl hopts
  | cons p r =>
    have hp2 : Contains it.url ['%', 's'] = true := hp
    simp [hq, hf, hw, h1, h2, hs, hp2]

/-- C2, at the sample database: `bb climate change`, also with tabs and
repeated blanks around the words. -/
theorem handleRedirect_multiword_options_witness :
    (handleRedirect sampleDB "bb climate change".toList).2
        = .redirect "https://www.bbc.com/news/world/climate change".toList 302
    ∧ (handleRedirect sampleDB " bb \t climate   change ".toList).2
        = .redirect "https://www.bbc.com/news/world/climate change".toList 302 :=
  ⟨handleRedirect_multiword_options sampleDB
      "https://duckduckgo.com/?q=\x7bsearchTerms\x7d".toList [] "bb".toList []
      [(" ".toList, "climate".toList), (" ".toList, "change".toList)]
      ⟨"bb".toList, "https://www.bbc.com/news/world/%s".toList, 0, 0⟩
      (by decide) (by decide) (by decide) (by decide) (by decide) (by decide) (by decide)
      (by decide) (by decide),
    handleRedirect_multiword_options sampleDB
      "https://duckduckgo.com/?q=\x7bsearchTerms\x7d".toList " ".toList "bb".toList " ".toList
      [(" \t ".toList, "climate".toList), ("   ".toList, "change".toList)]
      ⟨"bb".toList, "https://www.bbc.com/news/world/%s".toList, 0, 0⟩
      (by decide) (by decide) (by decide) (by decide) (by decide) (by decide) (by decide)
      (by decide) (by decide)⟩

/-- C3. For a keyword matched by exactly one shortcut that has
`singleword = 1` and a URL containing `%s`: a query of exactly two words is
redirected to the URL with `%s` replaced by the second word, and a query of
three or more words is redirected (no error) to the fallback template with
`{searchTerms}` replaced by the whole query. -/
theorem handleRedirect_single_word_policy (db : DB) (fallback_url query kw : Str) (it : Item)
    (hf : selectFallback db = some fallback_url)
    (hm : db.items.filter (lowerMatch kw) = [it])
    (hs : it.singleword = 1)
    (hp : Contains it.url "%s".toList = true) :
    (∀ opt, Fields query = [kw, opt] →
      (handleRedirect db query).2 = .redirect (ReplaceAll it.url "%s".toList opt) 302)
    ∧ (∀ o1 o2 rest, Fields query = kw :: o1 :: o2 :: rest →
      (handleRedirect db query).2
        = .redirect (ReplaceAll fallback_url "\x7bsearchTerms\x7d".toList query) 302) := by
  have h1 := countKeyword_of_single db kw it hm
  have h2 := selectDestination_of_single db kw it hm
  have hp2 : Contains it.url ['%', 's'] = true := hp
  constructor
  · intro opt hw
    have hq := ne_nil_of_Fields_cons query _ _ hw
    unfold handleRedirect
    simp [hq, hf, hw, h1, h2, hs, hp2]
  · intro o1 o2 rest hw
    have hq := ne_nil_of_Fields_cons query _ _ hw
    unfold handleRedirect
    simp [hq, hf, hw, h1, h2, hs, hp2]

/-- C3, at the sample database: `docker mariadb` reaches Docker Hub and
`docker versus openshift` the fallback engine. -/
theorem handleRedirect_single_word_policy_witness :
    (handleRedirect sampleDB "docker mariadb".toList).2
        = .redirect "https://hub.docker.com/search?q=mariadb".toList 302
    ∧ (handleRedirect sampleDB "docker versus openshift".toList).2
        = .redirect "https://duckduckgo.com/?q=docker versus openshift".toList 302 :=
  ⟨(handleRedirect_single_word_policy sampleDB
      "https://duckduckgo.com/?q=\x7bsearchTerms\x7d".toList "docker mariadb".toList
      "docker".toList ⟨"docker".toList, "https://hub.docker.com/search?q=%s".toList, 1, 0⟩
      (by decide) (by decide) (by decide) (by decide)).1 "mariadb".toList (by decide),
    (handleRedirect_single_word_policy sampleDB
      "https://duckduckgo.com/?q=\x7bsearchTerms\x7d".toList "docker versus openshift".toList
      "docker".toList ⟨"docker".toList, "https://hub.docker.com/search?q=%s".toList, 1, 0⟩
      (by decide) (by decide) (by decide) (by decide)).2
      "versus".toList "openshift".toList [] (by decide)⟩

/-- C4. A query of a single word matched by exactly one shortcut whose URL
contains no `%s` is redirected to the stored URL itself. -/
theorem handleRedirect_plain_keyword (db : DB) (fallback_url query kw : Str) (it : Item)
    (hf : selectFallback db = some fallback_url)
    (hw : Fields query = [kw])
    (hm : db.items.filter (lowerMatch kw) = [it])
    (hp : Contains it.url "%s".toList = false) :
    (handleRedirect db query).2 = .redirect it.url 302 := by
  have h1 := countKeyword_of_single db kw it hm
  have h2 := selectDestination_of_single db kw it hm
  have hp2 : Contains it.url ['%', 's'] = false := hp
  have hq := ne_nil_of_Fields_cons query _ _ hw
  unfold handleRedirect
  simp [hq, hf, hw, h1, h2, hp2]

/-- C4, at the sample database: `b` goes to the BBC front page. -/
theorem handleRedirect_plain_keyword_witness :
    (handleRedirect sampleDB "b".toList).2 = .redirect "https://www.bbc.com".toList 302 :=
  handleRedirect_plain_keyword sampleDB "https://duckduckgo.com/?q=\x7bsearchTerms\x7d".toList
    "b".toList "b".toList ⟨"b".toList, "https://www.bbc.com".toList, 0, 0⟩
    (by decide) (by decide) (by decide) (by decide)

/-- C5. A query of two or more words whose first word is matched by exactly
one shortcut whose URL contains no `%s` is answered by the 400 error that
names the typed keyword and the URL: no redirect is issued, to the shortcut
or to the fallback, and the `items` table, visit counts included, is left
as it was. -/
theorem handleRedirect_extra_options_rejected (db : DB) (fallback_url query kw o : Str)
    (rest : List Str) (it : Item)
    (hf : selectFallback db = some fallback_url)
    (hw : Fields query = kw :: o :: rest)
    (hm : db.items.filter (lowerMatch kw) = [it])
    (hp : Contains it.url "%s".toList = false) :
    (handleRedirect db query).2 = .error (msgNoOptions kw it.url) 400
    ∧ (handleRedirect db query).1.items = db.items := by
  have h1 := countKeyword_of_single db kw it hm
  have h2 := selectDestination_of_single db kw it hm
  have hp2 : Contains it.url ['%', 's'] = false := hp
  have hq := ne_nil_of_Fields_cons query _ _ hw
  unfold handleRedirect
  simp [hq, hf, hw, h1, h2, hp2]

/-- C5, at the sample database: `b extra` is refused. -/
theorem handleRedirect_extra_options_rejected_witness :
    (handleRedirect sampleDB "b extra".toList).2
        = .error ("The keyword b doesn\x27t accept options as its URL https://www.bbc.com"
            ++ " doesn\x27t have a placeholder.").toList 400
    ∧ (handleRedirect sampleDB "b extra".toList).1.items = sampleDB.items :=
  handleRedirect_extra_options_rejected sampleDB
    "https://duckduckgo.com/?q=\x7bsearchTerms\x7d".toList "b extra".toList "b".toList
    "extra".toList [] ⟨"b".toList, "https://www.bbc.com".toList, 0, 0⟩
    (by decide) (by decide) (by decide) (by decide)

/-- C6. A query of a single word matched by exactly one shortcut whose URL
contains `%s` is answered by the 400 error saying that an option is expected,
whatever the value of `singleword`: no redirect is issued and the `items`
table, visit counts included, is left as it was. -/
theorem handleRedirect_missing_option (db : DB) (fallback_url query kw : Str) (it : Item)
    (hf : selectFallback db = some fallback_url)
    (hw : Fields query = [kw])
    (hm : db.items.filter (lowerMatch kw) = [it])
    (hp : Contains it.url "%s".toList = true) :
    (handleRedirect db query).2 = .error (msgExpectsOption kw it.url) 400
    ∧ (handleRedirect db query).1.items = db.items := by
  have h1 := countKeyword_of_single db kw it hm
  have h2 := selectDestination_of_single db kw it hm
  have hp2 : Contains it.url ['%', 's'] = true := hp
  have hq := ne_nil_of_Fields_cons query _ _ hw
  unfold handleRedirect
  simp [hq, hf, hw, h1, h2, hp2]

/-- C6, at the sample database: `bb` (multi-word option) and `docker`
(single-word option) alone are both refused. -/
theorem handleRedirect_missing_option_witness :
    ((handleRedirect sampleDB "bb".toList).2
        = .error ("The keyword bb expects an option as its URL "
            ++ "https://www.bbc.com/news/world/%s contains a placeholder.").toList 400
      ∧ (handleRedirect sampleDB "bb".toList).1.items = sampleDB.items)
    ∧ ((handleRedirect sampleDB "docker".toList).2
        = .error ("The keyword docker expects an option as its URL "
            ++ "https://hub.docker.com/search?q=%s contains a placeholder.").toList 400
      ∧ (handleRedirect sampleDB "docker".toList).1.items = sampleDB.items) :=
  ⟨handleRedirect_missing_option sampleDB
      "https://duckduckgo.com/?q=\x7bsearchTerms\x7d".toList "bb".toList "bb".toList
      ⟨"bb".toList, "https://www.bbc.com/news/world/%s".toList, 0, 0⟩
      (by decide) (by decide) (by decide) (by decide),
    handleRedirect_missing_option sampleDB
      "https://duckduckgo.com/?q=\x7bsearchTerms\x7d".toList "docker".toList "docker".toList
      ⟨"docker".toList, "https://hub.docker.com/search?q=%s".toList, 1, 0⟩
      (by decide) (by decide) (by decide) (by decide)⟩

/-- C7, as stated, fails: the query of three blanks is white space only,
yet it is written to the query log and answered by a redirect to the
fallback engine. -/
theorem handleRedirect_blank_query_logged :
    "   ".toList ≠ [] ∧ IsBlank "   ".toList
    ∧ handleRedirect sampleDB "   ".toList
        = ({ sampleDB with queries := ["   ".toList] },
            .redirect "https://duckduckgo.com/?q=   ".toList 302) := by
  decide

/-- C7, amended. The empty query is refused with the 400 error
`A query can't be empty.`: no redirect is issued and the database, query
log included, is returned as it was. -/
theorem handleRedirect_empty_query (db : DB) :
    handleRedirect db [] = (db, .error "A query can\x27t be empty.".toList 400) := by
  simp [handleRedirect]

/-- C8, evaluated where it fails: `B` resolves through the stored shortcut
`b` and is redirected to its URL, but the `items` table is unchanged, so the
visit count of `b` is still 0. -/
theorem handleRedirect_uppercase_not_counted :
    (handleRedirect sampleDB "B".toList).2 = .redirect "https://www.bbc.com".toList 302
    ∧ (handleRedirect sampleDB "B".toList).1.items = sampleDB.items
    ∧ (handleRedirect sampleDB "b".toList).1.items
        = [ ⟨"b".toList, "https://www.bbc.com".toList, 0, 1⟩,
            ⟨"bb".toList, "https://www.bbc.com/news/world/%s".toList, 0, 0⟩,
            ⟨"bbc".toList, "https://www.bbc.com/search?q=%s".toList, 0, 0⟩,
            ⟨"docker".toList, "https://hub.docker.com/search?q=%s".toList, 1, 0⟩ ] := by
  decide

/-- C9, as stated, fails: `docker versus openshift` is sent to the fallback
engine and the visit count of `docker` goes from 0 to 1. -/
theorem handleRedirect_fallback_counted :
    (handleRedirect sampleDB "docker versus openshift".toList).2
        = .redirect "https://duckduckgo.com/?q=docker versus openshift".toList 302
    ∧ (handleRedirect sampleDB "docker versus openshift".toList).1.items
        = [ ⟨"b".toList, "https://www.bbc.com".toList, 0, 0⟩,
            ⟨"bb".toList, "https://www.bbc.com/news/world/%s".toList, 0, 0⟩,
            ⟨"bbc".toList, "https://www.bbc.com/search?q=%s".toList, 0, 0⟩,
            ⟨"docker".toList, "https://hub.docker.com/search?q=%s".toList, 1, 1⟩ ] := by
  decide

/-- C9, amended. For a query of three or more words whose first word is the
stored keyword, letter for letter, of the one shortcut it matches, that
shortcut having `singleword = 1` and a URL containing `%s`: the answer is the
fallback redirect, the visit count of that shortcut goes up by one, and every
other row of `items` is unchanged. -/
theorem handleRedirect_fallback_updates_typed_keyword (db : DB)
    (fallback_url query kw o1 o2 : Str) (rest : List Str) (it : Item)
    (hf : selectFallback db = some fallback_url)
    (hw : Fields query = kw :: o1 :: o2 :: rest)
    (hm : db.items.filter (lowerMatch kw) = [it])
    (hn : it.name = kw)
    (hs : it.singleword = 1)
    (hp : Contains it.url "%s".toList = true) :
    (handleRedirect db query).2
        = .redirect (ReplaceAll fallback_url "\x7bsearchTerms\x7d".toList query) 302
    ∧ (handleRedirect db query).1.items
        = db.items.map fun x => if x = it then { it with count := it.count + 1 } else x := by
  have h1 := countKeyword_of_single db kw it hm
  have h2 := selectDestination_of_single db kw it hm
  have hp2 : Contains it.url ['%', 's'] = true := hp
  have hq := ne_nil_of_Fields_cons query _ _ hw
  have hu := updateCount_of_single (insertQuery db query) kw it hm hn
  simp only [items_insertQuery] at hu
  unfold handleRedirect
  simp [hq, hf, hw, h1, h2, hs, hp2, hu]

/-- C9 amended, at the sample database. -/
theorem handleRedirect_fallback_updates_typed_keyword_witness :
    (handleRedirect sampleDB "docker versus openshift".toList).2
        = .redirect "https://duckduckgo.com/?q=docker versus openshift".toList 302
    ∧ (handleRedirect sampleDB "docker versus openshift".toList).1.items
        = sampleDB.items.map fun x =>
            if x = ⟨"docker".toList, "https://hub.docker.com/search?q=%s".toList, 1, 0⟩
            then ⟨"docker".toList, "https://hub.docker.com/search?q=%s".toList, 1, 0 + 1⟩
            else x :=
  handleRedirect_fallback_updates_typed_keyword sampleDB
    "https://duckduckgo.com/?q=\x7bsearchTerms\x7d".toList "docker versus openshift".toList
    "docker".toList "versus".toList "openshift".toList []
    ⟨"docker".toList, "https://hub.docker.com/search?q=%s".toList, 1, 0⟩
    (by decide) (by decide) (by decide) (by decide) (by decide) (by decide)

/-- C10. Whatever the database and the query: when the first word of the
query (the empty word, for a query without words) equals no stored keyword up
to ASCII case, the call leaves every row of `items`, visit counts included,
as it was. -/
theorem handleRedirect_unmatched_keeps_counts (db : DB) (query : Str)
    (hk : ∀ it ∈ db.items, sqlLower it.name ≠ sqlLower ((Fields query).headD [])) :
    (handleRedirect db query).1.items = db.items := by
  have h0 := countKeyword_eq_zero db _ hk
  have hu := updateCount_of_absent (insertQuery db query) ((Fields query).headD [])
    (fun it hit => name_ne_of_lower_ne _ it (hk it hit))
  unfold handleRedirect
  by_cases hq : query = []
  · simp [hq]
  · cases hf : selectFallback db with
    | none => simp [hq, hf]
    | some fallback_url =>
      rcases hw : Fields query with _ | ⟨a, _ | ⟨b, rest⟩⟩ <;> rw [hw] at h0 hu <;>
        simp only [List.headD_nil, List.headD_cons, items_insertQuery] at h0 hu <;>
        simp [hq, hf, h0, hu]

/-- C10, at the sample database: `banana split` changes no visit count. -/
theorem handleRedirect_unmatched_keeps_counts_witness :
    (handleRedirect sampleDB "banana split".toList).1.items = sampleDB.items :=
  handleRedirect_unmatched_keeps_counts sampleDB "banana split".toList (by decide)

/-- C11. A non-empty query, on a database that has its fallback row, adds
exactly one row to the query log, holding the query text as received,
whichever response the handler ends with: the log after the call is the log
before it followed by the query. -/
theorem handleRedirect_logs_query_once (db : DB) (query fallback_url : Str)
    (hq : query ≠ [])
    (hf : selectFallback db = some fallback_url) :
    (handleRedirect db query).1.queries = db.queries ++ [query] := by
  have hu : ∀ k, (updateCount (insertQuery db query) k).queries = db.queries ++ [query] :=
    fun _ => rfl
  unfold handleRedirect
  simp only [hq, hf, if_false]
  split
  · rfl
  · have hi : (insertQuery db query).queries = db.queries ++ [query] := rfl
    simp only [apply_ite Prod.fst, apply_ite DB.queries, hu, hi, ite_self]

/-- C11, at the sample database, once per kind of response: a direct
redirect, a fallback redirect, a missing option, an option too many. -/
theorem handleRedirect_logs_query_once_witness :
    ((handleRedirect sampleDB "bb climate change".toList).2
        = .redirect "https://www.bbc.com/news/world/climate change".toList 302
      ∧ (handleRedirect sampleDB "bb climate change".toList).1.queries
        = sampleDB.queries ++ ["bb climate change".toList])
    ∧ ((handleRedirect sampleDB "banana split".toList).2
        = .redirect "https://duckduckgo.com/?q=banana split".toList 302
      ∧ (handleRedirect sampleDB "banana split".toList).1.queries
        = sampleDB.queries ++ ["banana split".toList])
    ∧ ((handleRedirect sampleDB "bb".toList).2
        = .error (msgExpectsOption "bb".toList "https://www.bbc.com/news/world/%s".toList) 400
      ∧ (handleRedirect sampleDB "bb".toList).1.queries = sampleDB.queries ++ ["bb".toList])
    ∧ ((handleRedirect sampleDB "b extra".toList).2
        = .error (msgNoOptions "b".toList "https://www.bbc.com".toList) 400
      ∧ (handleRedirect sampleDB "b extra".toList).1.queries
        = sampleDB.queries ++ ["b extra".toList]) :=
  ⟨⟨by decide, handleRedirect_logs_query_once sampleDB "bb climate change".toList
      "https://duckduckgo.com/?q=\x7bsearchTerms\x7d".toList (by decide) (by decide)⟩,
    ⟨by decide, handleRedirect_logs_query_once sampleDB "banana split".toList
      "https://duckduckgo.com/?q=\x7bsearchTerms\x7d".toList (by decide) (by decide)⟩,
    ⟨by decide, handleRedirect_logs_query_once sampleDB "bb".toList
      "https://duckduckgo.com/?q=\x7bsearchTerms\x7d".toList (by decide) (by decide)⟩,
    ⟨by decide, handleRedirect_logs_query_once sampleDB "b extra".toList
      "https://duckduckgo.com/?q=\x7bsearchTerms\x7d".toList (by decide) (by decide)⟩⟩

/-- C12, as stated, fails: `Banana split` and `banana split` differ only in
the case of a letter of the first word, the stored keywords are unique up to
case, and the two redirect targets are different. -/
theorem handleRedirect_case_changes_fallback_target :
    (∀ a ∈ sampleDB.items, ∀ b ∈ sampleDB.items, sqlLower a.name = sqlLower b.name → a = b)
    ∧ sqlLower "Banana".toList = sqlLower "banana".toList
    ∧ (handleRedirect sampleDB "Banana split".toList).2
        = .redirect "https://duckduckgo.com/?q=Banana split".toList 302
    ∧ (handleRedirect sampleDB "banana split".toList).2
        = .redirect "https://duckduckgo.com/?q=banana split".toList 302
    ∧ (handleRedirect sampleDB "Banana split".toList).2
        ≠ (handleRedirect sampleDB "banana split".toList).2 := by
  decide

/-- C12, amended. Two queries that differ only in the ASCII letter case of
their first word get the same kind of answer: redirects to one and the same
target when a shortcut is used, fallback redirects that each carry their own
query text, or the same error, whose message names the word as typed. -/
theorem handleRedirect_keyword_case (db : DB) (lead k1 k2 tail : Str)
    (hl : IsBlank lead) (hk1 : IsWord k1) (hk2 : IsWord k2)
    (ht : ∀ c ∈ tail.head?, isSpace c = true)
    (hc : sqlLower k1 = sqlLower k2) :
    (∃ url, (handleRedirect db (lead ++ k1 ++ tail)).2 = .redirect url 302
        ∧ (handleRedirect db (lead ++ k2 ++ tail)).2 = .redirect url 302)
    ∨ (∃ fallback_url, selectFallback db = some fallback_url
        ∧ (handleRedirect db (lead ++ k1 ++ tail)).2
            = .redirect (ReplaceAll fallback_url "\x7bsearchTerms\x7d".toList
                (lead ++ k1 ++ tail)) 302
        ∧ (handleRedirect db (lead ++ k2 ++ tail)).2
            = .redirect (ReplaceAll fallback_url "\x7bsearchTerms\x7d".toList
                (lead ++ k2 ++ tail)) 302)
    ∨ (∃ destination_url,
        (handleRedirect db (lead ++ k1 ++ tail)).2
            = .error (msgNoOptions k1 destination_url) 400
        ∧ (handleRedirect db (lead ++ k2 ++ tail)).2
            = .error (msgNoOptions k2 destination_url) 400)
    ∨ (∃ destination_url,
        (handleRedirect db (lead ++ k1 ++ tail)).2
            = .error (msgExpectsOption k1 destination_url) 400
        ∧ (handleRedirect db (lead ++ k2 ++ tail)).2
            = .error (msgExpectsOption k2 destination_url) 400)
    ∨ (∃ msg, (handleRedirect db (lead ++ k1 ++ tail)).2 = .error msg 500
        ∧ (handleRedirect db (lead ++ k2 ++ tail)).2 = .error msg 500) := by
  have hw1 := Fields_first_word lead k1 tail hl hk1 ht
  have hw2 := Fields_first_word lead k2 tail hl hk2 ht
  have hq1 := ne_nil_of_Fields_cons _ _ _ hw1
  have hq2 := ne_nil_of_Fields_cons _ _ _ hw2
  have hm := lowerMatch_congr k1 k2 hc
  have hcnt : countKeyword db k1 = countKeyword db k2 := by simp [countKeyword, hm]
  have hsel : selectDestination db k1 = selectDestination db k2 := by
    simp [selectDestination, hm]
  cases hf : selectFallback db with
  | none =>
    refine Or.inr (Or.inr (Or.inr (Or.inr ⟨"Fallback URL not found.".toList, ?_, ?_⟩))) <;>
      simp [handleRedirect, hf, hk1.1, hk2.1]
  | some fb =>
    rw [handleRedirect_resolve db _ _ _ _ hf hw1, handleRedirect_resolve db _ _ _ _ hf hw2,
      hcnt, hsel]
    unfold resolve
    generalize Fields tail = rest
    repeat' split
    all_goals first
      | exact Or.inl ⟨_, rfl, rfl⟩
      | exact Or.inr (Or.inl ⟨fb, rfl, rfl, rfl⟩)
      | exact Or.inr (Or.inr (Or.inl ⟨_, rfl, rfl⟩))
      | exact Or.inr (Or.inr (Or.inr (Or.inl ⟨_, rfl, rfl⟩)))
      | exact Or.inr (Or.inr (Or.inr (Or.inr ⟨_, rfl, rfl⟩)))

/-- C12 amended, at the sample database: `BB europe` and `bb europe`. -/
theorem handleRedirect_keyword_case_witness :
    (∃ url, (handleRedirect sampleDB ([] ++ "BB".toList ++ " europe".toList)).2
          = .redirect url 302
        ∧ (handleRedirect sampleDB ([] ++ "bb".toList ++ " europe".toList)).2
          = .redirect url 302)
    ∨ (∃ fallback_url, selectFallback sampleDB = some fallback_url
        ∧ (handleRedirect sampleDB ([] ++ "BB".toList ++ " europe".toList)).2
            = .redirect (ReplaceAll fallback_url "\x7bsearchTerms\x7d".toList
                ([] ++ "BB".toList ++ " europe".toList)) 302
        ∧ (handleRedirect sampleDB ([] ++ "bb".toList ++ " europe".toList)).2
            = .redirect (ReplaceAll fallback_url "\x7bsearchTerms\x7d".toList
                ([] ++ "bb".toList ++ " europe".toList)) 302)
    ∨ (∃ destination_url,
        (handleRedirect sampleDB ([] ++ "BB".toList ++ " europe".toList)).2
            = .error (msgNoOptions "BB".toList destination_url) 400
        ∧ (handleRedirect sampleDB ([] ++ "bb".toList ++ " europe".toList)).2
            = .error (msgNoOptions "bb".toList destination_url) 400)
    ∨ (∃ destination_url,
        (handleRedirect sampleDB ([] ++ "BB".toList ++ " europe".toList)).2
            = .error (msgExpectsOption "BB".toList destination_url) 400
        ∧ (handleRedirect sampleDB ([] ++ "bb".toList ++ " europe".toList)).2
            = .error (msgExpectsOption "bb".toList destination_url) 400)
    ∨ (∃ msg, (handleRedirect sampleDB ([] ++ "BB".toList ++ " europe".toList)).2
          = .error msg 500
        ∧ (handleRedirect sampleDB ([] ++ "bb".toList ++ " europe".toList)).2
          = .error msg 500) :=
  handleRedirect_keyword_case sampleDB [] "BB".toList "bb".toList " europe".toList
    (by decide) (by decide) (by decide) (by decide) (by decide)

/-- C13, evaluated where it fails: the URL `https://www.bbc.com/%s/%s` has two
`%s`; `handleAdd` refuses it and leaves the database as it was, while
`handleModPost` accepts it for the shortcut `b` and stores it. -/
theorem handleModPost_stores_two_placeholders :
    Count "https://www.bbc.com/%s/%s".toList "%s".toList = 2
    ∧ handleAdd sampleDB "POST".toList "news".toList "https://www.bbc.com/%s/%s".toList []
        = (sampleDB, .error "You can only have one placeholder in your URL.".toList 405)
    ∧ (handleModPost sampleDB "b".toList "b".toList "https://www.bbc.com/%s/%s".toList []).2
        = .redirect "/".toList 303
    ∧ (handleModPost sampleDB "b".toList "b".toList "https://www.bbc.com/%s/%s".toList []).1.items
        = [ ⟨"b".toList, "https://www.bbc.com/%s/%s".toList, 0, 0⟩,
            ⟨"bb".toList, "https://www.bbc.com/news/world/%s".toList, 0, 0⟩,
            ⟨"bbc".toList, "https://www.bbc.com/search?q=%s".toList, 0, 0⟩,
            ⟨"docker".toList, "https://hub.docker.com/search?q=%s".toList, 1, 0⟩ ] := by
  decide

/-- C14. The fallback row `main` gives a new database holds a template with
exactly one `{searchTerms}`.  `handleFallbackPost` accepts a URL that is not
empty and contains exactly one `{searchTerms}`, and then the fallback row
holds that URL; it refuses every other URL with an error and returns the
database as it was.  So a stored template with exactly one `{searchTerms}`
is followed by one with exactly one, and `handleRedirect`, `handleAdd` and
`handleModPost` do not write to `settings`. -/
theorem fallback_template_one_placeholder :
    ((∀ db : DB, db.settings = [] →
        selectFallback (seedSettings db) = some defaultFallback.value)
      ∧ Count defaultFallback.value "\x7bsearchTerms\x7d".toList = 1)
    ∧ (∀ (db : DB) (url : Str), url ≠ [] → Count url "\x7bsearchTerms\x7d".toList = 1 →
        (handleFallbackPost db url).2 = .redirect "/".toList 303
        ∧ (handleFallbackPost db url).1.items = db.items
        ∧ ∀ v, selectFallback db = some v →
            selectFallback (handleFallbackPost db url).1 = some url)
    ∧ (∀ (db : DB) (url : Str), ¬ (url ≠ [] ∧ Count url "\x7bsearchTerms\x7d".toList = 1) →
        (handleFallbackPost db url).1 = db
        ∧ ∃ msg code, (handleFallbackPost db url).2 = .error msg code)
    ∧ (∀ (db : DB) (url : Str),
        (∀ v, selectFallback db = some v → Count v "\x7bsearchTerms\x7d".toList = 1) →
        ∀ v, selectFallback (handleFallbackPost db url).1 = some v →
          Count v "\x7bsearchTerms\x7d".toList = 1)
    ∧ (∀ (db : DB) (query : Str), (handleRedirect db query).1.settings = db.settings)
    ∧ (∀ (db : DB) (method name url singlewordvalue : Str),
        (handleAdd db method name url singlewordvalue).1.settings = db.settings)
    ∧ (∀ (db : DB) (name newName url singleword : Str),
        (handleModPost db name newName url singleword).1.settings = db.settings) := by
  refine ⟨⟨?_, by decide⟩, ?_, ?_, ?_, ?_, ?_, ?_⟩
  · intro db h
    simp [seedSettings, selectFallback, h, defaultFallback]
  · intro db url hne hc
    have e : handleFallbackPost db url
        = ({ db with settings := db.settings.map fun s =>
              if s.setting = "fallback_url".toList then { s with value := url } else s },
            .redirect "/".toList 303) := by
      unfold handleFallbackPost
      rw [if_neg hne]
      dsimp only
      rw [if_neg (not_not.mpr hc)]
    rw [e]
    refine ⟨rfl, rfl, ?_⟩
    intro v hv
    show selectFallback _ = some url
    rw [selectFallback_update, hv]
    rfl
  · intro db url h
    unfold handleFallbackPost
    by_cases hne : url = []
    · rw [if_pos hne]
      exact ⟨rfl, _, _, rfl⟩
    · have hc : Count url "\x7bsearchTerms\x7d".toList ≠ 1 := fun hc => h ⟨hne, hc⟩
      rw [if_neg hne]
      dsimp only
      rw [if_pos hc]
      exact ⟨rfl, _, _, rfl⟩
  · intro db url hinv v hv
    unfold handleFallbackPost at hv
    by_cases hne : url = []
    · rw [if_pos hne] at hv
      exact hinv v hv
    · rw [if_neg hne] at hv
      dsimp only at hv
      by_cases hc : Count url "\x7bsearchTerms\x7d".toList = 1
      · rw [if_neg (not_not.mpr hc)] at hv
        have hv2 : selectFallback { db with settings := db.settings.map fun s =>
            if s.setting = "fallback_url".toList then { s with value := url } else s }
            = some v := hv
        rw [selectFallback_update] at hv2
        cases hs : selectFallback db with
        | none => rw [hs] at hv2; cases hv2
        | some w =>
          rw [hs] at hv2
          cases hv2
          exact hc
      · rw [if_pos hc] at hv
        exact hinv v hv
  · intro db query
    unfold handleRedirect
    split_ifs
    · rfl
    · split
      · rfl
      · dsimp only
        split
        · rfl
        · simp only [apply_ite Prod.fst, apply_ite DB.settings]
          have hu : ∀ k, (updateCount (insertQuery db query) k).settings = db.settings :=
            fun _ => rfl
          have hi : (insertQuery db query).settings = db.settings := rfl
          simp only [hu, hi, ite_self]
  · intro db method name url singlewordvalue
    unfold handleAdd
    dsimp only
    split_ifs <;> rfl
  · intro db name newName url singleword
    unfold handleModPost
    dsimp only
    split_ifs <;> rfl

/-- C14, at the sample database: Google's search URL is accepted and becomes
the fallback template, a URL without `{searchTerms}` is refused and changes
nothing. -/
theorem fallback_template_one_placeholder_witness :
    ((handleFallbackPost sampleDB "https://www.google.com/search?q=\x7bsearchTerms\x7d".toList).2
        = .redirect "/".toList 303
      ∧ (handleFallbackPost sampleDB
          "https://www.google.com/search?q=\x7bsearchTerms\x7d".toList).1.items = sampleDB.items
      ∧ ∀ v, selectFallback sampleDB = some v →
          selectFallback (handleFallbackPost sampleDB
            "https://www.google.com/search?q=\x7bsearchTerms\x7d".toList).1
            = some "https://www.google.com/search?q=\x7bsearchTerms\x7d".toList)
    ∧ ((handleFallbackPost sampleDB "https://www.google.com/".toList).1 = sampleDB
      ∧ ∃ msg code,
          (handleFallbackPost sampleDB "https://www.google.com/".toList).2 = .error msg code) :=
  ⟨fallback_template_one_placeholder.2.1 sampleDB
      "https://www.google.com/search?q=\x7bsearchTerms\x7d".toList (by decide) (by decide),
    fallback_template_one_placeholder.2.2.1 sampleDB "https://www.google.com/".toList
      (by decide)⟩

/-- C15, as stated, fails: the sample database satisfies both template
invariants, yet the target for `bb %s` contains `%s` and the target for the
query `{searchTerms}` contains `{searchTerms}`: the text typed by the user is
inserted as it is. -/
theorem handleRedirect_target_keeps_typed_token :
    (∀ it ∈ sampleDB.items, Count it.url "%s".toList ≤ 1)
    ∧ (∀ v, selectFallback sampleDB = some v → Count v "\x7bsearchTerms\x7d".toList = 1)
    ∧ (handleRedirect sampleDB "bb %s".toList).2
        = .redirect "https://www.bbc.com/news/world/%s".toList 302
    ∧ Contains "https://www.bbc.com/news/world/%s".toList "%s".toList = true
    ∧ (handleRedirect sampleDB "\x7bsearchTerms\x7d".toList).2
        = .redirect "https://duckduckgo.com/?q=\x7bsearchTerms\x7d".toList 302
    ∧ Contains "https://duckduckgo.com/?q=\x7bsearchTerms\x7d".toList
        "\x7bsearchTerms\x7d".toList = true := by
  refine ⟨by decide, ?_, by decide, by decide, by decide, by decide⟩
  intro v hv
  have e : selectFallback sampleDB
      = some "https://duckduckgo.com/?q=\x7bsearchTerms\x7d".toList := by decide
  rw [e] at hv
  cases hv
  decide

/-- C15, amended. On a database that satisfies the template invariants, the
target of every redirect issued for a non-empty query has the placeholder of
its template filled in: it is empty, or the fallback template with its one
`{searchTerms}` replaced by the query, or a stored destination without `%s`,
or a stored destination with its one `%s` replaced by the further words of
the query joined by single spaces. -/
theorem handleRedirect_target_filled (db : DB) (query fallback_url url : Str)
    (hinv : ∀ it ∈ db.items, Count it.url "%s".toList ≤ 1)
    (hfb : Count fallback_url "\x7bsearchTerms\x7d".toList = 1)
    (hf : selectFallback db = some fallback_url)
    (hq : query ≠ [])
    (hr : (handleRedirect db query).2 = .redirect url 302) :
    url = []
    ∨ (∃ p s, fallback_url = p ++ "\x7bsearchTerms\x7d".toList ++ s
        ∧ Contains p "\x7bsearchTerms\x7d".toList = false
        ∧ Contains s "\x7bsearchTerms\x7d".toList = false
        ∧ url = p ++ query ++ s)
    ∨ (∃ it ∈ db.items, Contains it.url "%s".toList = false ∧ url = it.url)
    ∨ (∃ it ∈ db.items, ∃ p s, it.url = p ++ "%s".toList ++ s
        ∧ Contains p "%s".toList = false ∧ Contains s "%s".toList = false
        ∧ url = p ++ Join ((Fields query).drop 1) " ".toList ++ s) := by
  obtain ⟨fp, fs, hfe, hfp, hfs, hfr⟩ := fallback_target fallback_url hfb
  have fallback : ∀ u, Response.redirect (ReplaceAll fallback_url
      "\x7bsearchTerms\x7d".toList query) 302 = Response.redirect u 302 →
      ∃ p s, fallback_url = p ++ "\x7bsearchTerms\x7d".toList ++ s
        ∧ Contains p "\x7bsearchTerms\x7d".toList = false
        ∧ Contains s "\x7bsearchTerms\x7d".toList = false
        ∧ u = p ++ query ++ s := by
    intro u hu
    injection hu with hu _
    exact ⟨fp, fs, hfe, hfp, hfs, by rw [← hu, hfr]⟩
  rcases hw : Fields query with _ | ⟨kw, opts⟩
  · rw [handleRedirect_no_words db query fallback_url hq hf hw] at hr
    split_ifs at hr
    · exact Or.inr (Or.inl (fallback url hr))
    · injection hr with hr _
      exact Or.inl hr.symm
  · rw [handleRedirect_resolve db _ _ _ _ hf hw] at hr
    unfold resolve at hr
    split_ifs at hr with h0 h1
    · exact Or.inr (Or.inl (fallback url hr))
    · rcases hd : selectDestination db kw with _ | ⟨d, sw⟩
      · rw [hd] at hr
        cases hr
      · rw [hd] at hr
        obtain ⟨it, hit, hiu, _⟩ := mem_of_selectDestination db kw d sw hd
        cases hp : Contains d "%s".toList with
        | false =>
          simp only [hp, Bool.false_eq_true, if_false] at hr
          rcases opts with _ | ⟨o, r⟩
          · injection hr with hr _
            exact Or.inr (Or.inr (Or.inl ⟨it, hit, by rw [hiu]; exact hp, by rw [hiu, hr]⟩))
          · cases hr
        | true =>
          simp only [hp, if_true] at hr
          obtain ⟨p, s, he, hcp, hcs, hrep⟩ :=
            placeholder_target d hp (by rw [← hiu]; exact hinv it hit)
          have direct : ∀ u, Response.redirect (ReplaceAll d "%s".toList
              (Join opts " ".toList)) 302 = Response.redirect u 302 →
              ∃ it ∈ db.items, ∃ p s, it.url = p ++ "%s".toList ++ s
                ∧ Contains p "%s".toList = false ∧ Contains s "%s".toList = false
                ∧ u = p ++ Join opts " ".toList ++ s := by
            intro u hu
            injection hu with hu _
            exact ⟨it, hit, p, s, by rw [hiu, he], hcp, hcs, by rw [← hu, hrep]⟩
          rcases opts with _ | ⟨o, _ | ⟨o2, r⟩⟩
          · cases hr
          · dsimp only at hr
            by_cases hsw : sw = 1 ∨ sw = 0
            · rw [if_pos hsw] at hr
              exact Or.inr (Or.inr (Or.inr (direct url hr)))
            · rw [if_neg hsw] at hr
              injection hr with hr _
              exact Or.inl hr.symm
          · dsimp only at hr
            by_cases hs1 : sw = 1
            · rw [if_pos hs1] at hr
              exact Or.inr (Or.inl (fallback url hr))
            · rw [if_neg hs1] at hr
              by_cases hs0 : sw = 0
              · rw [if_pos hs0] at hr
                exact Or.inr (Or.inr (Or.inr (direct url hr)))
              · rw [if_neg hs0] at hr
                injection hr with hr _
                exact Or.inl hr.symm
    · injection hr with hr _
      exact Or.inl hr.symm

/-- C15 amended, at the sample database and the query `bb climate change`. -/
theorem handleRedirect_target_filled_witness :
    "https://www.bbc.com/news/world/climate change".toList = []
    ∨ (∃ p s, "https://duckduckgo.com/?q=\x7bsearchTerms\x7d".toList
          = p ++ "\x7bsearchTerms\x7d".toList ++ s
        ∧ Contains p "\x7bsearchTerms\x7d".toList = false
        ∧ Contains s "\x7bsearchTerms\x7d".toList = false
        ∧ "https://www.bbc.com/news/world/climate change".toList
          = p ++ "bb climate change".toList ++ s)
    ∨ (∃ it ∈ sampleDB.items, Contains it.url "%s".toList = false
        ∧ "https://www.bbc.com/news/world/climate change".toList = it.url)
    ∨ (∃ it ∈ sampleDB.items, ∃ p s, it.url = p ++ "%s".toList ++ s
        ∧ Contains p "%s".toList = false ∧ Contains s "%s".toList = false
        ∧ "https://www.bbc.com/news/world/climate change".toList
          = p ++ Join ((Fields "bb climate change".toList).drop 1) " ".toList ++ s) :=
  handleRedirect_target_filled sampleDB "bb climate change".toList
    "https://duckduckgo.com/?q=\x7bsearchTerms\x7d".toList
    "https://www.bbc.com/news/world/climate change".toList
    (by decide) (by decide) (by decide) (by decide) (by decide)

/-- C16, as stated, fails: once `handleModPost` has given the shortcut `b` the
URL `https://www.bbc.com/%s/%s`, the query `b news` is redirected to
`https://www.bbc.com/news/news`: the second `%s` is replaced as well, and the
target that keeps it, `https://www.bbc.com/news/%s`, is not the one sent. -/
theorem handleRedirect_replaces_second_placeholder :
    (handleRedirect
        (handleModPost sampleDB "b".toList "b".toList "https://www.bbc.com/%s/%s".toList []).1
        "b news".toList).2
      = .redirect "https://www.bbc.com/news/news".toList 302
    ∧ Contains "https://www.bbc.com/news/news".toList "%s".toList = false
    ∧ (handleRedirect
        (handleModPost sampleDB "b".toList "b".toList "https://www.bbc.com/%s/%s".toList []).1
        "b news".toList).2
      ≠ .redirect "https://www.bbc.com/news/%s".toList 302 := by
  decide

/-- C16, amended. Placeholder substitution replaces every occurrence of `%s`
in the destination: when the destination is made of pieces without `%s`
joined by `%s`, the target of the direct redirect is the same pieces joined
by the option text. -/
theorem handleRedirect_replaces_every_placeholder (db : DB) (query fallback_url kw : Str)
    (opts pieces : List Str) (it : Item)
    (hf : selectFallback db = some fallback_url)
    (hw : Fields query = kw :: opts) (hopts : opts ≠ [])
    (hm : db.items.filter (lowerMatch kw) = [it])
    (hu : it.url = Join pieces "%s".toList)
    (hpieces : ∀ p ∈ pieces, Contains p "%s".toList = false)
    (hlen : 2 ≤ pieces.length)
    (hs : it.singleword = 0 ∨ (it.singleword = 1 ∧ opts.length = 1)) :
    (handleRedirect db query).2
      = .redirect (Join pieces (Join opts " ".toList)) 302 := by
  have hp : Contains it.url "%s".toList = true := by
    rw [hu]
    rcases pieces with _ | ⟨w, _ | ⟨v, vs⟩⟩
    · simp at hlen
    · simp at hlen
    · have e : Join (w :: v :: vs) "%s".toList
          = w ++ ('%' :: ['s'] ++ Join (v :: vs) "%s".toList) := by
        simp [Join]
      rw [e]
      exact Contains_token '%' ['s'] w _
  rw [handleRedirect_direct db query fallback_url kw opts it hf hw hopts hm hp hs, hu]
  have := ReplaceAll_Join '%' ['s'] percent_s_head (Join opts " ".toList) pieces hpieces
  exact congrArg (fun u => Response.redirect u 302) this

/-- C16 amended, at the database in which `b` has the URL
`https://www.bbc.com/%s/%s`. -/
theorem handleRedirect_replaces_every_placeholder_witness :
    (handleRedirect
        (handleModPost sampleDB "b".toList "b".toList "https://www.bbc.com/%s/%s".toList []).1
        "b news".toList).2
      = .redirect "https://www.bbc.com/news/news".toList 302 :=
  handleRedirect_replaces_every_placeholder
    (handleModPost sampleDB "b".toList "b".toList "https://www.bbc.com/%s/%s".toList []).1
    "b news".toList "https://duckduckgo.com/?q=\x7bsearchTerms\x7d".toList "b".toList
    ["news".toList] ["https://www.bbc.com/".toList, "/".toList, []]
    ⟨"b".toList, "https://www.bbc.com/%s/%s".toList, 0, 0⟩
    (by decide) (by decide) (by decide) (by decide) (by decide) (by decide) (by decide)
    (by decide)

/-- C17. For a destination `P ++ "%s" ++ S` with exactly one `%s`, the target
of the direct redirect is `P ++ o ++ S`, where `o` is the option text, and
removing `P` at the front and `S` at the end of the target gives `o` back. -/
theorem handleRedirect_placeholder_round_trip (db : DB) (query fallback_url kw : Str)
    (opts : List Str) (it : Item) (P S : Str)
    (hf : selectFallback db = some fallback_url)
    (hw : Fields query = kw :: opts) (hopts : opts ≠ [])
    (hm : db.items.filter (lowerMatch kw) = [it])
    (hu : it.url = P ++ "%s".toList ++ S)
    (hc : Count it.url "%s".toList = 1)
    (hs : it.singleword = 0 ∨ (it.singleword = 1 ∧ opts.length = 1)) :
    (handleRedirect db query).2 = .redirect (P ++ Join opts " ".toList ++ S) 302
    ∧ stripAffixes P S (P ++ Join opts " ".toList ++ S) = Join opts " ".toList := by
  have e : it.url = P ++ ('%' :: ['s'] ++ S) := by rw [hu]; simp
  have hc2 : Count (P ++ ('%' :: ['s'] ++ S)) ('%' :: ['s']) = 1 := by rw [← e]; exact hc
  obtain ⟨hP, hS⟩ := clean_of_Count_one '%' ['s'] percent_s_head P S hc2
  have hp : Contains it.url "%s".toList = true := by
    rw [e]
    exact Contains_token '%' ['s'] P S
  constructor
  · rw [handleRedirect_direct db query fallback_url kw opts it hf hw hopts hm hp hs, e]
    have := ReplaceAll_token '%' ['s'] percent_s_head (Join opts " ".toList) P S hP hS
    rw [List.append_assoc]
    exact congrArg (fun u => Response.redirect u 302) this
  · simp [stripAffixes]

/-- C17, at the sample database: from the target of `bb climate change` the
option text `climate change` is read back. -/
theorem handleRedirect_placeholder_round_trip_witness :
    (handleRedirect sampleDB "bb climate change".toList).2
        = .redirect "https://www.bbc.com/news/world/climate change".toList 302
    ∧ stripAffixes "https://www.bbc.com/news/world/".toList []
        "https://www.bbc.com/news/world/climate change".toList = "climate change".toList :=
  handleRedirect_placeholder_round_trip sampleDB "bb climate change".toList
    "https://duckduckgo.com/?q=\x7bsearchTerms\x7d".toList "bb".toList
    ["climate".toList, "change".toList]
    ⟨"bb".toList, "https://www.bbc.com/news/world/%s".toList, 0, 0⟩
    "https://www.bbc.com/news/world/".toList []
    (by decide) (by decide) (by decide) (by decide) (by decide) (by decide) (by decide)

/-- C18. `handleAdd` compares keywords byte for byte, so a keyword that
differs from a stored one only in letter case is accepted, and then two rows
match it up to case.  Whenever two or more rows match the first word of a
non-empty query up to case, the handler answers with a redirect whose target
is the empty text: no error, no fallback, whatever the matching rows hold. -/
theorem handleRedirect_ambiguous_keyword :
    (∀ (db : DB) (name url singlewordvalue : Str) (it : Item),
        name ≠ [] → url ≠ [] → Count url "%s".toList ≤ 1 →
        it ∈ db.items → sqlLower it.name = sqlLower name →
        (∀ x ∈ db.items, x.name ≠ name) →
        (handleAdd db "POST".toList name url singlewordvalue).2 = .redirect "/".toList 303
        ∧ 2 ≤ countKeyword (handleAdd db "POST".toList name url singlewordvalue).1 name)
    ∧ (∀ (db : DB) (query fallback_url : Str),
        query ≠ [] → selectFallback db = some fallback_url →
        2 ≤ countKeyword db ((Fields query).headD []) →
        (handleRedirect db query).2 = .redirect [] 302) := by
  constructor
  · intro db name url sv it hn hu hc hit hl hx
    have hany : db.items.any (fun x => x.name == name) = false := by
      rw [List.any_eq_false]
      intro x hxm
      simpa using hx x hxm
    have hcnt : ¬ Count url "%s".toList > 1 := by omega
    have e : handleAdd db "POST".toList name url sv
        = ({ db with items := db.items ++ [⟨name, url,
              if sv = "on".toList then 1 else if sv = [] then 0 else 0, 0⟩] },
            .redirect "/".toList 303) := by
      unfold handleAdd
      rw [if_neg (not_not.mpr rfl), if_neg (by simp [hn, hu])]
      dsimp only
      rw [if_neg hcnt, hany]
      rfl
    rw [e]
    refine ⟨rfl, ?_⟩
    have h1 : it ∈ db.items.filter (lowerMatch name) := by
      rw [List.mem_filter]
      exact ⟨hit, by simp [lowerMatch, hl]⟩
    have h2 : 1 ≤ (db.items.filter (lowerMatch name)).length := List.length_pos_of_mem h1
    simp only [countKeyword, List.filter_append, List.length_append]
    have h3 : lowerMatch name ⟨name, url,
        if sv = "on".toList then 1 else if sv = [] then 0 else 0, 0⟩ = true := by
      simp [lowerMatch]
    simp only [List.filter_cons, h3, if_true, List.filter_nil, List.length_singleton]
    omega
  · intro db query fb hq hf h2
    rcases hw : Fields query with _ | ⟨kw, opts⟩
    · rw [hw] at h2
      rw [handleRedirect_no_words db query fb hq hf hw, if_neg]
      simp only [List.headD_nil] at h2
      omega
    · rw [hw] at h2
      simp only [List.headD_cons] at h2
      rw [handleRedirect_resolve db _ _ _ _ hf hw]
      unfold resolve
      rw [if_neg (by omega), if_neg (by omega)]

/-- C18, at the sample database: `BB` is accepted next to `bb`, and then
`bb europe` is redirected to the empty text. -/
theorem handleRedirect_ambiguous_keyword_witness :
    ((handleAdd sampleDB "POST".toList "BB".toList "https://www.bbc.co.uk/%s".toList []).2
        = .redirect "/".toList 303
      ∧ 2 ≤ countKeyword
          (handleAdd sampleDB "POST".toList "BB".toList "https://www.bbc.co.uk/%s".toList []).1
          "BB".toList)
    ∧ (handleRedirect
        (handleAdd sampleDB "POST".toList "BB".toList "https://www.bbc.co.uk/%s".toList []).1
        "bb europe".toList).2 = .redirect [] 302 :=
  ⟨handleRedirect_ambiguous_keyword.1 sampleDB "BB".toList "https://www.bbc.co.uk/%s".toList []
      ⟨"bb".toList, "https://www.bbc.com/news/world/%s".toList, 0, 0⟩
      (by decide) (by decide) (by decide) (by decide) (by decide) (by decide),
    handleRedirect_ambiguous_keyword.2
      (handleAdd sampleDB "POST".toList "BB".toList "https://www.bbc.co.uk/%s".toList []).1
      "bb europe".toList "https://duckduckgo.com/?q=\x7bsearchTerms\x7d".toList
      (by decide) (by decide) (by decide)⟩

end GoMarks
